import Mathlib

/-!
Verification of the `vscode-elm-lsp` extension (`src/extension.ts`) against
its natural-language specification.  Each section embeds one group of
functions from the source as executable Lean definitions and proves the
corresponding specification claims about them.
-/

namespace ElmLsp

/-!
### POSIX path helpers

The extension manipulates absolute POSIX-style paths through Node's `path`
module.  These helpers mirror `path.dirname`, `path.basename`,
`path.relative` and `path.join` on such inputs.
-/

/-- Split a path at `/`, by structural recursion on the character list so
that concrete paths evaluate inside the kernel. -/
def splitSegsAux : List Char → List Char → List String
  | [], acc => [String.mk acc.reverse]
  | c :: cs, acc =>
    if c = '/' then String.mk acc.reverse :: splitSegsAux cs []
    else splitSegsAux cs (c :: acc)

def splitPath (p : String) : List String :=
  (splitSegsAux p.toList []).filter (fun s => s ≠ "")

/-- Model of JavaScript's `String.prototype.endsWith`, as a list-suffix
test. -/
def strEndsWith (s t : String) : Bool :=
  List.isSuffixOf t.toList s.toList

/-- Resolve `.` and `..` segments the way `path.join` and `path.relative`
do for absolute paths (a `..` at the root stays at the root). -/
def normSegs (segs : List String) : List String :=
  segs.foldl (fun acc s =>
    if s = "." then acc
    else if s = ".." then acc.dropLast
    else acc ++ [s]) []

/-- Model of `path.join` applied to an absolute first component. -/
def joinAbs (parts : List String) : String :=
  "/" ++ String.intercalate "/" (normSegs (parts.flatMap splitPath))

/-- Model of `path.dirname` for an absolute path. -/
def dirname (p : String) : String :=
  let segs := splitPath p
  if segs.length ≤ 1 then "/" else "/" ++ String.intercalate "/" segs.dropLast

/-- Model of `path.basename` for an absolute path. -/
def basename (p : String) : String :=
  ((splitPath p).getLast?).getD ""

/-- Drop the shared leading segments of two segment lists. -/
def dropShared : List String → List String → List String × List String
  | a :: as, b :: bs => if a = b then dropShared as bs else (a :: as, b :: bs)
  | as, bs => (as, bs)

/-- Model of `path.relative` between two absolute paths. -/
def pathRelative (base dst : String) : String :=
  let pair := dropShared (normSegs (splitPath base)) (normSegs (splitPath dst))
  String.intercalate "/" (List.replicate pair.1.length ".." ++ pair.2)

/-!
### Platform Resolver

Embedding of `getPlatformTarget` (extension.ts, lines 134-146).  The two
reads of `process.platform` and `process.arch` become the two arguments; a
thrown `Error` is modelled as `Except.error` carrying the error message.
-/

def getPlatformTarget (platform arch : String) : Except String String :=
  if platform = "darwin" then
    Except.ok (if arch = "arm64" then "darwin-arm64" else "darwin-x64")
  else if platform = "linux" then
    Except.ok "linux-x64"
  else if platform = "win32" then
    Except.ok "win32-x64"
  else
    Except.error ("Unsupported platform: " ++ platform ++ "-" ++ arch)

/-- The four canonical targets named by the specification. -/
def canonicalTargets : List String :=
  ["darwin-arm64", "darwin-x64", "linux-x64", "win32-x64"]

/-- Modelled from the spec's words: the {os, architecture} pairs that the
four canonical targets stand for — the "supported combinations" of the
claim. -/
def specSupportedPairs : List (String × String) :=
  [("darwin", "arm64"), ("darwin", "x64"), ("linux", "x64"), ("win32", "x64")]

/-- Claim C1, counterexample: the pair (linux, arm64) is not one of the four
supported combinations, yet `getPlatformTarget` does not throw for it — it
falls back to the target `linux-x64`.  This refutes the claim that for every
pair other than the supported combinations the function throws instead of
returning a target. -/
theorem c1_counterexample :
    getPlatformTarget "linux" "arm64" = Except.ok "linux-x64" ∧
    ("linux", "arm64") ∉ specSupportedPairs := by
  constructor
  · rfl
  · decide

/-- Claim C1, amended: `getPlatformTarget` consults the architecture only on
darwin.  It succeeds exactly when the operating system is darwin, linux or
win32 — for any architecture — and every success is one of the four
canonical targets: darwin maps arm64 to darwin-arm64 and any other
architecture to darwin-x64, while linux and win32 ignore the architecture
and return linux-x64 and win32-x64.  Only an unrecognised operating system
throws, with a descriptive message naming the platform-architecture pair. -/
theorem c1_platform_target (platform arch : String) :
    (platform = "darwin" →
      getPlatformTarget platform arch =
        Except.ok (if arch = "arm64" then "darwin-arm64" else "darwin-x64")) ∧
    (platform = "linux" →
      getPlatformTarget platform arch = Except.ok "linux-x64") ∧
    (platform = "win32" →
      getPlatformTarget platform arch = Except.ok "win32-x64") ∧
    (platform ∉ (["darwin", "linux", "win32"] : List String) →
      getPlatformTarget platform arch =
        Except.error ("Unsupported platform: " ++ platform ++ "-" ++ arch)) ∧
    (∀ t, getPlatformTarget platform arch = Except.ok t → t ∈ canonicalTargets) := by
  unfold getPlatformTarget
  by_cases hd : platform = "darwin" <;>
    by_cases hl : platform = "linux" <;>
      by_cases hw : platform = "win32" <;>
        by_cases ha : arch = "arm64" <;>
          simp_all [canonicalTargets]

/-- Claim C1, witness: the amended theorem evaluated at concrete inputs. -/
theorem c1_witness :
    getPlatformTarget "darwin" "arm64" = Except.ok "darwin-arm64" ∧
    getPlatformTarget "riscv" "x64" = Except.error "Unsupported platform: riscv-x64" := by
  constructor
  · have h := (c1_platform_target "darwin" "arm64").1 rfl
    simpa using h
  · have h := (c1_platform_target "riscv" "x64").2.2.2.1 (by decide)
    exact h

/-!
### Binary Installer download (`downloadFile`, extension.ts lines 234-261)

`downloadFile` creates a write stream at `dest` (which creates an empty
file there), then issues an HTTPS GET, re-issuing it on a 301/302 redirect,
piping the body into the stream on a 200, rejecting on any other status,
and unlinking `dest` only when the request emits a transport error.

The network is modelled as a function from URL to either a response
(status code, `Location` header, body) or a transport error.  The model
returns the settled promise value together with the final state of the
destination file: `none` when the file was deleted, `some c` when a file
with content `c` is left on disk.  Because the source's redirect recursion
has no depth bound, the model takes fuel and returns `Option`; `none`
models the diverging redirect chain.
-/

structure HttpResponse where
  statusCode : Nat
  location : String
  body : String
deriving DecidableEq, Repr

inductive HttpResult where
  | response (r : HttpResponse)
  | netError (msg : String)
deriving DecidableEq, Repr

def downloadGo (net : String → HttpResult) : Nat → String →
    Option (Except String Unit × Option String)
  | 0, _ => none
  | fuel + 1, url =>
    match net url with
    | HttpResult.response r =>
      if r.statusCode = 302 ∨ r.statusCode = 301 then
        downloadGo net fuel r.location
      else if r.statusCode ≠ 200 then
        some (Except.error ("Download failed: " ++ toString r.statusCode), some "")
      else
        some (Except.ok (), some r.body)
    | HttpResult.netError msg => some (Except.error msg, none)

def downloadFile (net : String → HttpResult) (url : String) (fuel : Nat) :
    Option (Except String Unit × Option String) :=
  downloadGo net fuel url

/-- A network that answers every URL with a plain 404. -/
def net404 : String → HttpResult :=
  fun _ => HttpResult.response ⟨404, "", ""⟩

/-- Claim C2, counterexample: with a terminal 404 status, `downloadFile`
rejects with "Download failed: 404" but leaves the (empty) destination file
created by the write stream in place — the destination is `some ""` rather
than deleted (`none`).  This refutes the claim that every unsuccessful
termination deletes the partially-written destination file: only the
transport-error path unlinks it. -/
theorem c2_counterexample :
    downloadFile net404 "https://example.org/asset" 1 =
      some (Except.error "Download failed: 404", some "") ∧
    (some "" : Option String) ≠ none := by
  constructor
  · rfl
  · simp

/-- Claim C2, amended: when `downloadFile` settles, exactly one of three
outcomes holds: the request errored at the transport level and the
destination file was deleted; the terminal status was some non-200 code and
the promise rejects with "Download failed: code" while the destination is
left as the empty file the write stream created; or the terminal status was
200 and the promise resolves with the response body fully written to the
destination.  Cleanup of the destination therefore happens exactly on
transport errors, not on non-200 terminal statuses. -/
theorem c2_download_cleanup (net : String → HttpResult) (fuel : Nat) (url : String)
    (res : Except String Unit) (file : Option String)
    (h : downloadGo net fuel url = some (res, file)) :
    (∃ m, res = Except.error m ∧ file = none) ∨
    (∃ c, c ≠ 200 ∧ res = Except.error ("Download failed: " ++ toString c) ∧
      file = some "") ∨
    (res = Except.ok () ∧ ∃ b, file = some b) := by
  induction fuel generalizing url with
  | zero => simp [downloadGo] at h
  | succ n ih =>
    rw [downloadGo] at h
    cases hnet : net url with
    | response r =>
      rw [hnet] at h
      dsimp only at h
      by_cases hredir : r.statusCode = 302 ∨ r.statusCode = 301
      · rw [if_pos hredir] at h
        exact ih r.location h
      · rw [if_neg hredir] at h
        by_cases h200 : r.statusCode = 200
        · simp [h200] at h
          exact Or.inr (Or.inr ⟨h.1.symm, r.body, h.2.symm⟩)
        · simp [h200] at h
          exact Or.inr (Or.inl ⟨r.statusCode, h200, h.1.symm, h.2.symm⟩)
    | netError msg =>
      rw [hnet] at h
      dsimp only at h
      simp at h
      exact Or.inl ⟨msg, h.1.symm, h.2.symm⟩

/-- Claim C2, witness: the amended theorem applied to a network whose single
response is a transport error; the destination file is deleted. -/
theorem c2_witness :
    downloadGo (fun _ => HttpResult.netError "reset") 1 "u" =
      some (Except.error "reset", none) ∧
    ((∃ m, (Except.error "reset" : Except String Unit) = Except.error m ∧
        (none : Option String) = none) ∨
      (∃ c, c ≠ 200 ∧ (Except.error "reset" : Except String Unit) =
          Except.error ("Download failed: " ++ toString c) ∧
        (none : Option String) = some "") ∨
      ((Except.error "reset" : Except String Unit) = Except.ok () ∧
        ∃ b, (none : Option String) = some b)) := by
  constructor
  · rfl
  · exact c2_download_cleanup (fun _ => HttpResult.netError "reset") 1 "u"
      (Except.error "reset") none rfl

/-!
### Binary Locator (`findServerBinary`, extension.ts lines 148-174)

The filesystem is modelled as the predicate `fsExists`; the configuration
read `config.get('server.path')` becomes the `configPath` argument (with
JavaScript truthiness: an absent option or the empty string is falsy).
`BINARY_NAME` is a parameter because it depends on `process.platform`.
-/

def findServerBinary (fsExists : String → Bool) (configPath : Option String)
    (storagePath extensionPath binaryName : String) : Option String :=
  if (configPath.getD "") ≠ "" ∧ fsExists (configPath.getD "") then
    some (configPath.getD "")
  else
    let downloadedBinary := joinAbs [storagePath, binaryName]
    if fsExists downloadedBinary then
      some downloadedBinary
    else
      let devPaths :=
        [joinAbs [extensionPath, "..", "elm-lsp-rust", "target", "release", "elm_lsp"],
         joinAbs [extensionPath, "..", "elm-lsp-rust", "target", "debug", "elm_lsp"]]
      devPaths.find? fsExists

/-- Claim C7: `findServerBinary` tries its candidates in strict precedence.
A non-empty configured path that exists is always returned, regardless of
what else exists on disk; otherwise the previously-installed binary in the
persistent storage directory is returned if it exists; otherwise the sibling
development release build is preferred over the debug build; and when no
candidate exists the result is `none` — "not found" rather than an error. -/
theorem c7_find_server_binary (fsExists : String → Bool) (configPath : Option String)
    (storagePath extensionPath binaryName : String) :
    (∀ p, configPath = some p → p ≠ "" → fsExists p = true →
      findServerBinary fsExists configPath storagePath extensionPath binaryName = some p) ∧
    (¬((configPath.getD "") ≠ "" ∧ fsExists (configPath.getD "")) →
      fsExists (joinAbs [storagePath, binaryName]) = true →
      findServerBinary fsExists configPath storagePath extensionPath binaryName =
        some (joinAbs [storagePath, binaryName])) ∧
    (¬((configPath.getD "") ≠ "" ∧ fsExists (configPath.getD "")) →
      fsExists (joinAbs [storagePath, binaryName]) = false →
      fsExists (joinAbs [extensionPath, "..", "elm-lsp-rust", "target", "release", "elm_lsp"]) = true →
      findServerBinary fsExists configPath storagePath extensionPath binaryName =
        some (joinAbs [extensionPath, "..", "elm-lsp-rust", "target", "release", "elm_lsp"])) ∧
    (¬((configPath.getD "") ≠ "" ∧ fsExists (configPath.getD "")) →
      fsExists (joinAbs [storagePath, binaryName]) = false →
      fsExists (joinAbs [extensionPath, "..", "elm-lsp-rust", "target", "release", "elm_lsp"]) = false →
      fsExists (joinAbs [extensionPath, "..", "elm-lsp-rust", "target", "debug", "elm_lsp"]) = true →
      findServerBinary fsExists configPath storagePath extensionPath binaryName =
        some (joinAbs [extensionPath, "..", "elm-lsp-rust", "target", "debug", "elm_lsp"])) ∧
    (¬((configPath.getD "") ≠ "" ∧ fsExists (configPath.getD "")) →
      fsExists (joinAbs [storagePath, binaryName]) = false →
      fsExists (joinAbs [extensionPath, "..", "elm-lsp-rust", "target", "release", "elm_lsp"]) = false →
      fsExists (joinAbs [extensionPath, "..", "elm-lsp-rust", "target", "debug", "elm_lsp"]) = false →
      findServerBinary fsExists configPath storagePath extensionPath binaryName = none) := by
  refine ⟨?_, ?_, ?_, ?_, ?_⟩
  · intro p hp hne hex
    subst hp
    simp only [findServerBinary, Option.getD]
    rw [if_pos ⟨hne, hex⟩]
  · intro hcfg hdl
    simp only [findServerBinary]
    rw [if_neg (by simpa using hcfg), if_pos hdl]
  · intro hcfg hdl hrel
    simp only [findServerBinary]
    rw [if_neg (by simpa using hcfg), if_neg (by simp [hdl])]
    simp [List.find?, hrel]
  · intro hcfg hdl hrel hdbg
    simp only [findServerBinary]
    rw [if_neg (by simpa using hcfg), if_neg (by simp [hdl])]
    simp [List.find?, hrel, hdbg]
  · intro hcfg hdl hrel hdbg
    simp only [findServerBinary]
    rw [if_neg (by simpa using hcfg), if_neg (by simp [hdl])]
    simp [List.find?, hrel, hdbg]

/-- Claim C7, witness: with both the configured path and every other
candidate present on disk, the configured path wins; with nothing present,
the result is "not found". -/
theorem c7_witness :
    findServerBinary (fun _ => true) (some "/opt/elm_lsp") "/store" "/ext" "elm_lsp" =
      some "/opt/elm_lsp" ∧
    findServerBinary (fun _ => false) (some "/opt/elm_lsp") "/store" "/ext" "elm_lsp" =
      none := by
  constructor
  · exact (c7_find_server_binary (fun _ => true) (some "/opt/elm_lsp") "/store" "/ext"
      "elm_lsp").1 "/opt/elm_lsp" rfl (by decide) rfl
  · exact (c7_find_server_binary (fun _ => false) (some "/opt/elm_lsp") "/store" "/ext"
      "elm_lsp").2.2.2.2 (by simp) rfl rfl rfl

/-!
### Rename Synchronizer (`onWillRenameFiles` handler, extension.ts lines 349-417)

A rename pair carries the filesystem paths of `oldUri`/`newUri`; URIs are
recovered with `uriOf` (`Uri.toString()` of a file URI).  The server is a
function from the executed command to either a thrown exception
(`Except.error`) or the command's result object.  The handler is modelled
as the list of its observable effects, where the single
`WEffect.applyEdit` at the end stands for the workspace edit returned to
`event.waitUntil`, which the editor applies once.
-/

structure RenamePair where
  oldPath : String
  newPath : String
deriving DecidableEq, Repr

structure TextEdit where
  startLine : Nat
  startChar : Nat
  endLine : Nat
  endChar : Nat
  newText : String
deriving DecidableEq, Repr

structure RenameResult where
  success : Bool
  changes : Option (List (String × List TextEdit))
  oldModuleName : String
  newModuleName : String
  filesUpdated : Nat
  error : Option String
deriving DecidableEq, Repr

inductive Command where
  | renameFile (oldUri newName : String)
  | moveFile (oldUri relPath : String)
deriving DecidableEq, Repr

inductive WEffect where
  | sendCommand (c : Command)
  | log (msg : String)
  | warn (msg : String)
  | applyEdit (edits : List (String × TextEdit))
deriving DecidableEq, Repr

def uriOf (fsPath : String) : String := "file://" ++ fsPath

/-- The filter of the handler: both paths must end with `.elm`. -/
def elmPair (f : RenamePair) : Bool :=
  strEndsWith f.oldPath ".elm" && strEndsWith f.newPath ".elm"

/-- The command the handler executes for one pair (lines 361-385): same
containing directory means `elm.renameFile` with the new base name,
otherwise `elm.moveFile` with the new path relative to the workspace folder
of the old URI, or the absolute new path when there is none. -/
def commandFor (root : String → Option String) (f : RenamePair) : Command :=
  let oldDir := dirname f.oldPath
  let newDir := dirname f.newPath
  let newName := basename f.newPath
  if oldDir = newDir then
    Command.renameFile (uriOf f.oldPath) newName
  else
    let relativePath :=
      match root f.oldPath with
      | some wf => pathRelative wf f.newPath
      | none => f.newPath
    Command.moveFile (uriOf f.oldPath) relativePath

def flattenChanges (chs : List (String × List TextEdit)) : List (String × TextEdit) :=
  chs.flatMap (fun c => c.2.map (fun e => (c.1, e)))

/-- One iteration of the handler's loop: execute the command and produce
this pair's contribution to the accumulated workspace edit together with
its logged/warned effects.  A thrown exception is caught and logged. -/
def processPair (server : Command → Except String RenameResult)
    (root : String → Option String) (f : RenamePair) :
    List (String × TextEdit) × List WEffect :=
  let cmd := commandFor root f
  match server cmd with
  | Except.error e =>
    ([], [WEffect.sendCommand cmd, WEffect.log ("Elm file rename error: " ++ e)])
  | Except.ok result =>
    let edits :=
      if result.success then
        match result.changes with
        | some chs => flattenChanges chs
        | none => []
      else []
    let report :=
      if result.success then
        [WEffect.log ("Elm: " ++ result.oldModuleName ++ " → " ++ result.newModuleName ++
          " (" ++ toString result.filesUpdated ++ " files updated)")]
      else
        match result.error with
        | some err => [WEffect.warn ("Elm move/rename: " ++ err)]
        | none => []
    (edits, WEffect.sendCommand cmd :: report)

def pairEdits (server : Command → Except String RenameResult)
    (root : String → Option String) (files : List RenamePair) :
    List (String × TextEdit) :=
  files.flatMap (fun f => (processPair server root f).1)

def pairEffects (server : Command → Except String RenameResult)
    (root : String → Option String) (files : List RenamePair) : List WEffect :=
  files.flatMap (fun f => (processPair server root f).2)

/-- The handler (lines 349-417): filter to `.elm`-to-`.elm` pairs, bail out
with no effect when nothing is left or no client is live, otherwise process
every pair and finish with the single accumulated workspace edit. -/
def onWillRenameFiles (server : Command → Except String RenameResult)
    (root : String → Option String) (files : List RenamePair)
    (clientPresent : Bool) : List WEffect :=
  let elmFiles := files.filter elmPair
  if elmFiles.isEmpty || !clientPresent then []
  else
    pairEffects server root elmFiles ++
      [WEffect.applyEdit (pairEdits server root elmFiles)]

def isApply : WEffect → Bool
  | WEffect.applyEdit _ => true
  | _ => false

theorem processPair_mem_send (server : Command → Except String RenameResult)
    (root : String → Option String) (f : RenamePair) :
    WEffect.sendCommand (commandFor root f) ∈ (processPair server root f).2 := by
  cases hs : server (commandFor root f) <;> simp [processPair, hs]

theorem pairEffects_no_apply (server : Command → Except String RenameResult)
    (root : String → Option String) (files : List RenamePair) :
    ∀ e ∈ pairEffects server root files, isApply e = false := by
  intro e he
  simp only [pairEffects, List.mem_flatMap] at he
  obtain ⟨f, _, hef⟩ := he
  cases hs : server (commandFor root f) with
  | error m =>
    simp [processPair, hs] at hef
    rcases hef with h | h <;> simp [h, isApply]
  | ok r =>
    by_cases hsuc : r.success
    · simp [processPair, hs, hsuc] at hef
      rcases hef with h | h <;> simp [h, isApply]
    · cases hr : r.error with
      | none =>
        simp [processPair, hs, hsuc, hr] at hef
        simp [hef, isApply]
      | some err =>
        simp [processPair, hs, hsuc, hr] at hef
        rcases hef with h | h <;> simp [h, isApply]

/-- Claim C8: pairs in which either path does not end in `.elm` are removed
by the filter before any processing: dropping such a pair from a batch does
not change the handler's effects at all, so no protocol command is ever
issued for it. -/
theorem c8_non_elm_ignored (server : Command → Except String RenameResult)
    (root : String → Option String) (q : RenamePair) (hq : elmPair q = false) :
    ∀ (xs ys : List RenamePair) (clientPresent : Bool),
      onWillRenameFiles server root (xs ++ q :: ys) clientPresent =
        onWillRenameFiles server root (xs ++ ys) clientPresent := by
  intro xs ys c
  unfold onWillRenameFiles
  simp [List.filter_append, List.filter_cons, hq]

/-- Claim C8, witness: renaming `notes.txt` to `notes.md` contributes
nothing to a batch. -/
theorem c8_witness :
    onWillRenameFiles (fun _ => Except.error "e") (fun _ => none)
        ([] ++ RenamePair.mk "/p/notes.txt" "/p/notes.md" :: []) true =
      onWillRenameFiles (fun _ => Except.error "e") (fun _ => none) ([] ++ []) true :=
  c8_non_elm_ignored (fun _ => Except.error "e") (fun _ => none)
    (RenamePair.mk "/p/notes.txt" "/p/notes.md") (by decide) [] [] true

/-- Claim C4: for a pair of `.elm` paths, an unchanged containing directory
yields the `elm.renameFile` command with the old file URI and the new base
name; a changed directory yields the `elm.moveFile` command with the old
file URI and the new path relative to the owning workspace root, or the
absolute new path when no workspace root is found; and the handler issues
exactly that command for the pair. -/
theorem c4_rename_or_move (root : String → Option String) (f : RenamePair)
    (h1 : strEndsWith f.oldPath ".elm" = true) (h2 : strEndsWith f.newPath ".elm" = true) :
    (dirname f.oldPath = dirname f.newPath →
      commandFor root f = Command.renameFile (uriOf f.oldPath) (basename f.newPath)) ∧
    (dirname f.oldPath ≠ dirname f.newPath →
      (∀ wf, root f.oldPath = some wf →
        commandFor root f = Command.moveFile (uriOf f.oldPath) (pathRelative wf f.newPath)) ∧
      (root f.oldPath = none →
        commandFor root f = Command.moveFile (uriOf f.oldPath) f.newPath)) ∧
    (∀ server, WEffect.sendCommand (commandFor root f) ∈
      onWillRenameFiles server root [f] true) := by
  refine ⟨?_, ?_, ?_⟩
  · intro hdir
    simp [commandFor, hdir]
  · intro hdir
    constructor
    · intro wf hwf
      simp [commandFor, hdir, hwf]
    · intro hwf
      simp [commandFor, hdir, hwf]
  · intro server
    have hmem := processPair_mem_send server root f
    have helm : elmPair f = true := by simp [elmPair, h1, h2]
    unfold onWillRenameFiles
    simp only [List.filter_cons, helm, if_true, List.filter_nil, List.isEmpty_cons,
      Bool.not_true, Bool.or_false, Bool.false_or, if_false, pairEffects,
      List.flatMap_cons, List.flatMap_nil, List.append_nil]
    exact List.mem_append_left _ hmem

/-- Claim C4, witness: the spec's example — moving `/proj/src/Foo.elm` to
`/proj/src/Sub/Foo.elm` inside workspace root `/proj` issues the move
command with relative path `src/Sub/Foo.elm`. -/
theorem c4_witness :
    commandFor (fun _ => some "/proj") (RenamePair.mk "/proj/src/Foo.elm" "/proj/src/Sub/Foo.elm") =
      Command.moveFile "file:///proj/src/Foo.elm" "src/Sub/Foo.elm" := by
  have h := ((c4_rename_or_move (fun _ => some "/proj")
    (RenamePair.mk "/proj/src/Foo.elm" "/proj/src/Sub/Foo.elm") (by decide) (by decide)).2.1
      (by decide)).1 "/proj" rfl
  rw [h]
  decide

/-- Claim C5: the handler accumulates every pair's edits into one workspace
edit applied once at the very end of the batch — its effect trace contains
no edit application among the per-pair effects and finishes with the single
accumulated `applyEdit` — and an exception thrown while processing one pair
is caught and logged while the remaining pairs still run and still
contribute their edits. -/
theorem c5_atomic_batch (server : Command → Except String RenameResult)
    (root : String → Option String) :
    (∀ (files : List RenamePair) (clientPresent : Bool),
      onWillRenameFiles server root files clientPresent = [] ∨
      (onWillRenameFiles server root files clientPresent =
        pairEffects server root (files.filter elmPair) ++
          [WEffect.applyEdit (pairEdits server root (files.filter elmPair))] ∧
       ∀ e ∈ pairEffects server root (files.filter elmPair), isApply e = false)) ∧
    (∀ (p : RenamePair) (m : String) (xs ys : List RenamePair),
      server (commandFor root p) = Except.error m →
      pairEffects server root (xs ++ p :: ys) =
        pairEffects server root xs ++
          [WEffect.sendCommand (commandFor root p),
           WEffect.log ("Elm file rename error: " ++ m)] ++
          pairEffects server root ys ∧
      pairEdits server root (xs ++ p :: ys) =
        pairEdits server root xs ++ pairEdits server root ys) := by
  constructor
  · intro files clientPresent
    by_cases hif : (files.filter elmPair).isEmpty || !clientPresent
    · left
      simp [onWillRenameFiles, hif]
    · right
      refine ⟨?_, pairEffects_no_apply server root (files.filter elmPair)⟩
      simp [onWillRenameFiles, hif]
  · intro p m xs ys hthrow
    constructor
    · simp [pairEffects, List.flatMap_append, List.flatMap_cons, processPair, hthrow]
    · simp [pairEdits, List.flatMap_append, List.flatMap_cons, processPair, hthrow]

/-- Claim C5, witness: a batch whose only pair throws still produces the
logged error between no other effects, applied through the theorem. -/
theorem c5_witness :
    pairEffects (fun _ => Except.error "boom") (fun _ => none)
        ([] ++ RenamePair.mk "/a/x.elm" "/a/y.elm" :: []) =
      pairEffects (fun _ => Except.error "boom") (fun _ => none) [] ++
        [WEffect.sendCommand (commandFor (fun _ => none) (RenamePair.mk "/a/x.elm" "/a/y.elm")),
         WEffect.log ("Elm file rename error: " ++ "boom")] ++
        pairEffects (fun _ => Except.error "boom") (fun _ => none) [] :=
  ((c5_atomic_batch (fun _ => Except.error "boom") (fun _ => none)).2
    (RenamePair.mk "/a/x.elm" "/a/y.elm") "boom" [] [] rfl).1

/-!
### Reference Annotator (`ElmReferencesCodeLensProvider.resolveCodeLens`,
extension.ts lines 88-126)

A code lens carries only its range (it is created as
`new vscode.CodeLens(range, undefined)`, without any document reference).
`resolveCodeLens` reads the document of the *active editor*, sends one
`textDocument/references` request against that document's URI at the lens
range's start with `includeDeclaration: false`, and builds the command from
the reference count.  The model records the request that was issued so the
target URI is observable; the server is a function from the request to the
response (a thrown error, `null`, or a list of locations).
-/

structure RefRequest where
  uri : String
  line : Nat
  character : Nat
  includeDeclaration : Bool
deriving DecidableEq, Repr

abbrev Location := String × Nat × Nat

structure ResolvedLens where
  title : String
  command : String
  args : Option (String × Nat × Nat)
  request : Option RefRequest
deriving DecidableEq, Repr

def resolveCodeLens (clientPresent : Bool) (activeDoc : Option String)
    (server : RefRequest → Except Unit (Option (List Location)))
    (lensLine lensChar : Nat) : ResolvedLens :=
  if !clientPresent then ⟨"", "", none, none⟩
  else
    match activeDoc with
    | none => ⟨"", "", none, none⟩
    | some docUri =>
      let req : RefRequest := ⟨docUri, lensLine, lensChar, false⟩
      match server req with
      | Except.error _ => ⟨"", "", none, some req⟩
      | Except.ok references =>
        let count := (references.map List.length).getD 0
        let title := if count = 1 then "1 reference" else toString count ++ " references"
        ⟨title,
         if count > 0 then "editor.action.findReferences" else "",
         if count > 0 then some (docUri, lensLine, lensChar) else none,
         some req⟩

/-- Claim C6: with a live client, an active document and a successful
references response of length `n`: a count of 0 yields a non-actionable
label (empty command, no arguments); a count of 1 yields the literal label
"1 reference"; any count other than 1 yields "n references"; and every
count of one or more attaches the `editor.action.findReferences` command
with the document URI and the annotation's own position as arguments. -/
theorem c6_reference_labels (server : RefRequest → Except Unit (Option (List Location)))
    (docUri : String) (lensLine lensChar : Nat) (refs : List Location)
    (h : server ⟨docUri, lensLine, lensChar, false⟩ = Except.ok (some refs)) :
    (refs.length = 0 →
      (resolveCodeLens true (some docUri) server lensLine lensChar).command = "" ∧
      (resolveCodeLens true (some docUri) server lensLine lensChar).args = none) ∧
    (refs.length = 1 →
      (resolveCodeLens true (some docUri) server lensLine lensChar).title = "1 reference") ∧
    (refs.length ≠ 1 →
      (resolveCodeLens true (some docUri) server lensLine lensChar).title =
        toString refs.length ++ " references") ∧
    (1 ≤ refs.length →
      (resolveCodeLens true (some docUri) server lensLine lensChar).command =
        "editor.action.findReferences" ∧
      (resolveCodeLens true (some docUri) server lensLine lensChar).args =
        some (docUri, lensLine, lensChar)) := by
  refine ⟨?_, ?_, ?_, ?_⟩
  · intro h0
    simp [resolveCodeLens, h, h0]
  · intro h1
    simp [resolveCodeLens, h, h1]
  · intro h1
    simp [resolveCodeLens, h, h1]
  · intro h1
    have hpos : 0 < refs.length := h1
    constructor <;> simp [resolveCodeLens, h, hpos, Nat.pos_iff_ne_zero.mp hpos]

/-- Claim C6, witness: zero, one and three references on concrete servers. -/
theorem c6_witness :
    ((resolveCodeLens true (some "file:///proj/src/A.elm")
        (fun _ => Except.ok (some [])) 4 0).command = "" ∧
      (resolveCodeLens true (some "file:///proj/src/A.elm")
        (fun _ => Except.ok (some [])) 4 0).args = none) ∧
    (resolveCodeLens true (some "file:///proj/src/A.elm")
        (fun _ => Except.ok (some [("file:///proj/src/B.elm", 1, 2)])) 4 0).title =
      "1 reference" ∧
    ((resolveCodeLens true (some "file:///proj/src/A.elm")
        (fun _ => Except.ok (some [("u", 0, 0), ("u", 1, 0), ("u", 2, 0)])) 4 0).title =
      toString (3 : Nat) ++ " references" ∧
      (resolveCodeLens true (some "file:///proj/src/A.elm")
        (fun _ => Except.ok (some [("u", 0, 0), ("u", 1, 0), ("u", 2, 0)])) 4 0).args =
      some ("file:///proj/src/A.elm", 4, 0)) := by
  refine ⟨?_, ?_, ?_, ?_⟩
  · exact (c6_reference_labels (fun _ => Except.ok (some [])) "file:///proj/src/A.elm"
      4 0 [] rfl).1 rfl
  · exact (c6_reference_labels (fun _ => Except.ok (some [("file:///proj/src/B.elm", 1, 2)]))
      "file:///proj/src/A.elm" 4 0 [("file:///proj/src/B.elm", 1, 2)] rfl).2.1 rfl
  · exact (c6_reference_labels (fun _ => Except.ok (some [("u", 0, 0), ("u", 1, 0), ("u", 2, 0)]))
      "file:///proj/src/A.elm" 4 0 [("u", 0, 0), ("u", 1, 0), ("u", 2, 0)] rfl).2.2.1 (by decide)
  · exact ((c6_reference_labels (fun _ => Except.ok (some [("u", 0, 0), ("u", 1, 0), ("u", 2, 0)]))
      "file:///proj/src/A.elm" 4 0 [("u", 0, 0), ("u", 1, 0), ("u", 2, 0)] rfl).2.2.2
        (by decide)).2

/-- Claim C9: whenever a request is issued at all, it targets the URI of
the currently active editor's document — the lens itself carries no
document, so resolution can never target the document that produced the
symbol — and when there is no live client or no active editor the result is
the empty, non-actionable label with no request issued at all. -/
theorem c9_active_editor_uri (server : RefRequest → Except Unit (Option (List Location)))
    (activeUri : String) (lensLine lensChar : Nat) :
    ((resolveCodeLens true (some activeUri) server lensLine lensChar).request =
      some ⟨activeUri, lensLine, lensChar, false⟩) ∧
    (∀ (cp : Bool) (doc : Option String),
      resolveCodeLens false doc server lensLine lensChar = ⟨"", "", none, none⟩ ∧
      resolveCodeLens cp none server lensLine lensChar = ⟨"", "", none, none⟩) := by
  constructor
  · cases hs : server ⟨activeUri, lensLine, lensChar, false⟩ <;>
      simp [resolveCodeLens, hs]
  · intro cp doc
    cases cp <;> simp [resolveCodeLens]

/-!
### Server Supervisor restart (`elm-lsp.restartServer` handler, lines 419-439)

The handler runs on JavaScript's single-threaded event loop: code between
two `await`s is atomic, and concurrent invocations interleave only at
suspension points.  One invocation is a program counter advanced by atomic
steps:

* pc 0 — the synchronous guard: if `isRestarting` is set, show the
  "already restarting" warning and finish; otherwise set the flag;
* pc 1 — `await client.stop()`: the current connection stops running;
* pc 2 — `await findServerBinary(...)`;
* pc 3 — `await startLanguageClient(...)` when a path was found (one new
  connection starts running), skipped otherwise;
* pc 4 — the `finally` block: clear `isRestarting`;
* pc 5 — done.

A configuration records whether the binary is found and which awaited step
throws; a throwing step jumps straight to the `finally` block, exactly as
`try`/`finally` does.  The shared state carries the reentrancy flag and the
number of live running connections.
-/

inductive REffect where
  | warned
  | stopped
  | resolved
  | started
  | info
deriving DecidableEq, Repr

structure RestartCfg where
  pathFound : Bool
  stopThrows : Bool
  resolveThrows : Bool
  startThrows : Bool
deriving DecidableEq, Repr

structure SupState where
  isRestarting : Bool
  running : Nat
deriving DecidableEq, Repr

structure InvState where
  pc : Fin 6
  trace : List REffect
deriving DecidableEq, Repr

def stepInv (cfg : RestartCfg) (inv : InvState) (s : SupState) : InvState × SupState :=
  match inv.pc.val with
  | 0 =>
    if s.isRestarting then (⟨5, inv.trace ++ [REffect.warned]⟩, s)
    else (⟨1, inv.trace⟩, { s with isRestarting := true })
  | 1 =>
    if cfg.stopThrows then (⟨4, inv.trace⟩, s)
    else (⟨2, inv.trace ++ [REffect.stopped]⟩, { s with running := s.running - 1 })
  | 2 =>
    if cfg.resolveThrows then (⟨4, inv.trace⟩, s)
    else (⟨3, inv.trace ++ [REffect.resolved]⟩, s)
  | 3 =>
    if cfg.pathFound then
      if cfg.startThrows then (⟨4, inv.trace⟩, s)
      else (⟨4, inv.trace ++ [REffect.started, REffect.info]⟩,
        { s with running := s.running + 1 })
    else (⟨4, inv.trace⟩, s)
  | 4 => (⟨5, inv.trace⟩, { s with isRestarting := false })
  | _ => (inv, s)

structure Sys where
  a : InvState
  b : InvState
  st : SupState
deriving DecidableEq, Repr

def sysStep (cfgA cfgB : RestartCfg) (sys : Sys) (choice : Bool) : Sys :=
  if choice then
    let p := stepInv cfgA sys.a sys.st
    { sys with a := p.1, st := p.2 }
  else
    let p := stepInv cfgB sys.b sys.st
    { sys with b := p.1, st := p.2 }

/-- Initial state: one running connection, guard clear, two pending
invocations of the restart command. -/
def initSys : Sys :=
  ⟨⟨0, []⟩, ⟨0, []⟩, ⟨false, 1⟩⟩

def runSched (cfgA cfgB : RestartCfg) (sched : List Bool) : Sys :=
  sched.foldl (sysStep cfgA cfgB) initSys

/-- An invocation past the guard that has not yet executed its `finally`. -/
def holding (inv : InvState) : Prop :=
  1 ≤ inv.pc.val ∧ inv.pc.val ≤ 4

instance (inv : InvState) : Decidable (holding inv) := by
  unfold holding
  infer_instance

/-- An invocation that has stopped the old connection but not yet started
the new one. -/
def gap (inv : InvState) : Prop :=
  inv.pc.val = 2 ∨ inv.pc.val = 3

instance (inv : InvState) : Decidable (gap inv) := by
  unfold gap
  infer_instance

/-- A configuration in which the in-flight restart can do real work: the
binary is found and none of the awaited steps throws. -/
def goodCfg (cfg : RestartCfg) : Prop :=
  cfg.pathFound = true ∧ cfg.stopThrows = false ∧
    cfg.resolveThrows = false ∧ cfg.startThrows = false

def flagInv (sys : Sys) : Prop :=
  ¬(holding sys.a ∧ holding sys.b) ∧
    (sys.st.isRestarting = true ↔ (holding sys.a ∨ holding sys.b))

def restartInv (sys : Sys) : Prop :=
  flagInv sys ∧ sys.st.running = (if gap sys.a ∨ gap sys.b then 0 else 1)

set_option maxHeartbeats 2000000 in
theorem flagInv_step (cfgA cfgB : RestartCfg) (sys : Sys) (h : flagInv sys)
    (c : Bool) : flagInv (sysStep cfgA cfgB sys c) := by
  obtain ⟨hAB, hflag⟩ := h
  rcases sys with ⟨⟨pa, ta⟩, ⟨pb, tb⟩, ⟨flag, run⟩⟩
  cases c <;> fin_cases pa <;> fin_cases pb <;> cases flag <;>
    simp_all [sysStep, stepInv, flagInv, holding] <;>
      first
      | decide
      | (split_ifs <;> simp_all) <;> decide

set_option maxHeartbeats 2000000 in
theorem restartInv_step (cfgA cfgB : RestartCfg) (hA : goodCfg cfgA)
    (hB : goodCfg cfgB) (sys : Sys) (h : restartInv sys) (c : Bool) :
    restartInv (sysStep cfgA cfgB sys c) := by
  obtain ⟨⟨hAB, hflag⟩, hrun⟩ := h
  obtain ⟨ha1, ha2, ha3, ha4⟩ := hA
  obtain ⟨hb1, hb2, hb3, hb4⟩ := hB
  rcases cfgA with ⟨apf, ast, art, asth⟩
  rcases cfgB with ⟨bpf, bst, brt, bsth⟩
  simp only at ha1 ha2 ha3 ha4 hb1 hb2 hb3 hb4
  subst ha1 ha2 ha3 ha4 hb1 hb2 hb3 hb4
  rcases sys with ⟨⟨pa, ta⟩, ⟨pb, tb⟩, ⟨flag, run⟩⟩
  cases c <;> fin_cases pa <;> fin_cases pb <;> cases flag <;>
    simp_all [sysStep, stepInv, restartInv, flagInv, holding, gap] <;>
      decide

theorem flagInv_run (cfgA cfgB : RestartCfg) (sched : List Bool) :
    flagInv (runSched cfgA cfgB sched) := by
  induction sched using List.reverseRecOn with
  | nil => simp [runSched, initSys, flagInv, holding]
  | append_singleton xs c ih =>
    rw [runSched, List.foldl_append]
    exact flagInv_step cfgA cfgB _ ih c

theorem restartInv_run (cfgA cfgB : RestartCfg) (hA : goodCfg cfgA)
    (hB : goodCfg cfgB) (sched : List Bool) :
    restartInv (runSched cfgA cfgB sched) := by
  induction sched using List.reverseRecOn with
  | nil => simp [runSched, initSys, restartInv, flagInv, holding, gap]
  | append_singleton xs c ih =>
    rw [runSched, List.foldl_append]
    exact restartInv_step cfgA cfgB hA hB _ ih c

/-- Claim C3: a restart request whose guard check finds `isRestarting` set
is finished immediately with the user-visible "already restarting" warning
and no change whatsoever to the shared state — no stop, no binary
re-resolution, no start; and whenever the in-flight restart's binary is
found and none of its steps throws, in every interleaving of two restart
invocations at most one connection is ever running, and once both
invocations have completed exactly one connection is running. -/
theorem c3_restart_reentrancy (cfgA cfgB : RestartCfg) (hA : goodCfg cfgA)
    (hB : goodCfg cfgB) :
    (∀ (inv : InvState) (s : SupState), inv.pc.val = 0 → s.isRestarting = true →
      stepInv cfgA inv s = (⟨5, inv.trace ++ [REffect.warned]⟩, s)) ∧
    (∀ sched : List Bool, (runSched cfgA cfgB sched).st.running ≤ 1) ∧
    (∀ sched : List Bool, (runSched cfgA cfgB sched).a.pc.val = 5 →
      (runSched cfgA cfgB sched).b.pc.val = 5 →
      (runSched cfgA cfgB sched).st.running = 1) := by
  refine ⟨?_, ?_, ?_⟩
  · intro inv s hpc hflag
    rcases inv with ⟨⟨v, hv⟩, t⟩
    simp only [Fin.val_mk] at hpc
    subst hpc
    simp [stepInv, hflag]
  · intro sched
    have h := (restartInv_run cfgA cfgB hA hB sched).2
    rw [h]
    split <;> omega
  · intro sched h5a h5b
    have h := (restartInv_run cfgA cfgB hA hB sched).2
    rw [h]
    simp [gap, h5a, h5b]

/-- Claim C3, witness: the schedule in which invocation B's guard check
lands between A's guard and A's `finally`: B is rejected and the final
state has exactly one running connection. -/
theorem c3_witness :
    (runSched ⟨true, false, false, false⟩ ⟨true, false, false, false⟩
      [true, false, true, true, true, true]).st.running = 1 :=
  (c3_restart_reentrancy ⟨true, false, false, false⟩ ⟨true, false, false, false⟩
    ⟨rfl, rfl, rfl, rfl⟩ ⟨rfl, rfl, rfl, rfl⟩).2.2 [true, false, true, true, true, true]
    (by decide) (by decide)

/-- Claim C10: whatever throws and whether or not a binary is found, once
both restart invocations have completed the `isRestarting` flag is clear —
the `finally` block always resets it — and therefore a fresh restart
attempt whose guard check runs with the flag clear is never rejected: it
proceeds past the guard (setting the flag) instead of warning. -/
theorem c10_flag_always_reset (cfgA cfgB : RestartCfg) :
    (∀ sched : List Bool, (runSched cfgA cfgB sched).a.pc.val = 5 →
      (runSched cfgA cfgB sched).b.pc.val = 5 →
      (runSched cfgA cfgB sched).st.isRestarting = false) ∧
    (∀ (cfg : RestartCfg) (inv : InvState) (s : SupState),
      inv.pc.val = 0 → s.isRestarting = false →
      stepInv cfg inv s = (⟨1, inv.trace⟩, { s with isRestarting := true })) := by
  constructor
  · intro sched h5a h5b
    have h := (flagInv_run cfgA cfgB sched).2
    rcases hfl : (runSched cfgA cfgB sched).st.isRestarting with _ | _
    · rfl
    · exfalso
      rcases h.mp hfl with hh | hh <;>
        simp [holding, h5a, h5b] at hh
  · intro cfg inv s hpc hflag
    rcases inv with ⟨⟨v, hv⟩, t⟩
    simp only [Fin.val_mk] at hpc
    subst hpc
    simp [stepInv, hflag]

/-- Claim C10, witness: a run in which the binary is missing and
`client.stop()` throws in both invocations still ends with the flag clear. -/
theorem c10_witness :
    (runSched ⟨false, true, false, false⟩ ⟨false, true, false, false⟩
      [true, true, true, false, false, false]).st.isRestarting = false :=
  (c10_flag_always_reset ⟨false, true, false, false⟩ ⟨false, true, false, false⟩).1
    [true, true, true, false, false, false] (by decide) (by decide)

end ElmLsp
